import Mathlib

/-!
# Verification of the Data Center Energy Simulator allocation engine

A shallow embedding of the portfolio allocation engine of `src/app.py`
(a Streamlit app).  Monetary values and rates are modelled as rationals,
plant counts as integers.  Stateful widget interaction is modelled as a
pure left-to-right pass over the list of portfolio entries, mirroring the
loop in `main` (src/app.py lines 222-292).
-/

namespace Simulator

/-- One catalog row, as loaded from the spreadsheet columns used by
`src/app.py` (`Source`, `Total_costs_per_twh`, `Energy_per_plant`,
`total_plants`, `waste_cost`, `toxic_waste_tons`, `co2_per_twh`, `score`). -/
structure SourceProfile where
  name : String
  energyPerPlant : ℚ
  totalCostsPerTwh : ℚ
  wasteCost : ℚ
  toxicWasteTons : ℚ
  co2PerTwh : ℚ
  score : ℚ
  totalPlants : ℤ
deriving Repr, DecidableEq

/-- `cost_per_plant = Energy_per_plant * (Total_costs_per_twh + waste_cost)`
(src/app.py lines 175, 236, 256). -/
def costPerPlant (p : SourceProfile) : ℚ :=
  p.energyPerPlant * (p.totalCostsPerTwh + p.wasteCost)

/-- The catalog: the loaded dataframe, one row per source. -/
abbrev Catalog := List SourceProfile

/-- `df.loc[df["Source"] == s].iloc[0]`: the first catalog row whose name is
`s`; `none` models the IndexError raised when no row matches. -/
def findProfile (cat : Catalog) (s : String) : Option SourceProfile :=
  cat.find? (fun p => p.name == s)

/-- Helper for `uniqueNames`: keep each element whose first occurrence this
is, tracking the names already seen. -/
def uniqueNamesAux (seen : List String) : List String → List String
  | [] => []
  | s :: rest =>
    if s ∈ seen then uniqueNamesAux seen rest
    else s :: uniqueNamesAux (s :: seen) rest

/-- `df["Source"].unique().tolist()` (src/app.py line 139): the distinct
names in first-occurrence order. -/
def uniqueNames (l : List String) : List String :=
  uniqueNamesAux [] l

/-- `valid_sources` of src/app.py line 139. -/
def validSources (cat : Catalog) : List String :=
  uniqueNames (cat.map SourceProfile.name)

/-- `df["min_cost_per_plant"].min()` over the catalog (src/app.py line 179);
`none` models the NaN produced on an empty frame. -/
def colMin : List ℚ → Option ℚ
  | [] => none
  | x :: xs =>
    match colMin xs with
    | none => some x
    | some m => some (min x m)

/-- `min_budget` (src/app.py line 179). -/
def minBudget (cat : Catalog) : Option ℚ :=
  colMin (cat.map costPerPlant)

/-- `max_cost_per_source = total_plants * min_cost_per_plant`
(src/app.py line 177). -/
def maxCostPerSource (p : SourceProfile) : ℚ :=
  (p.totalPlants : ℚ) * costPerPlant p

/-- `max_budget = df["max_cost_per_source"].sum()` (src/app.py line 180). -/
def maxBudget (cat : Catalog) : ℚ :=
  (cat.map maxCostPerSource).sum

/-- `allowed_by_budget = int(remaining // cost_per_plant) if cost_per_plant > 0
else max_plants; allowed_max = min(max_plants, allowed_by_budget)`
(src/app.py lines 259-260). -/
def allowedMax (p : SourceProfile) (remaining : ℚ) : ℤ :=
  if 0 < costPerPlant p then
    min p.totalPlants ⌊remaining / costPerPlant p⌋
  else p.totalPlants

/-- The filter part of the affordable-source computation (src/app.py lines
233-238): the valid sources whose `cost_per_plant <= remaining`. -/
def affordableBase (cat : Catalog) (remaining : ℚ) : List String :=
  (validSources cat).filter (fun s =>
    match findProfile cat s with
    | some p => decide (costPerPlant p ≤ remaining)
    | none => false)

/-- The affordable-source list of one row (src/app.py lines 233-242):
filter the valid sources by `cost_per_plant <= remaining`, append the row's
current selection when absent and the remaining budget is positive, then
`sorted(...)`. -/
def affordable_sources (cat : Catalog) (remaining : ℚ) (current : String) :
    List String :=
  (if current ∉ affordableBase cat remaining ∧ 0 < remaining then
    affordableBase cat remaining ++ [current]
  else affordableBase cat remaining).mergeSort

/-- One portfolio entry: `{"type": ..., "n": ...}` of
`st.session_state.energy_sources` (src/app.py line 218). -/
structure Entry where
  type : String
  n : ℤ
deriving Repr, DecidableEq

/-- `st.session_state.energy_sources.pop(index)` (src/app.py line 40);
`none` models the IndexError on an invalid index. -/
def remove_row (l : List Entry) (i : ℕ) : Option (List Entry) :=
  if i < l.length then some (l.eraseIdx i) else none

/-- The values computed and displayed for one row of the loop
(src/app.py lines 226-287). -/
structure RowResult where
  index : ℕ
  sourceName : String
  costPerPlant : ℚ
  allowedMax : ℤ
  rowCost : ℚ
  remainingAfterRow : ℚ
deriving Repr, DecidableEq

/-- The terminal state of a full pass: the emitted rows, the entries as
written back to session state, and the final budget status
(src/app.py lines 289-292). -/
structure PassResult where
  rows : List RowResult
  entriesAfter : List Entry
  totalAllocated : ℚ
  totalRemaining : ℚ
deriving Repr, DecidableEq

/-- One iteration of the loop body (src/app.py lines 226-284) at position
`i` with accumulated cost `accumulated`:
* `remaining_budget_this = budget - accumulated_cost`;
* the selectbox keeps the stored source when it is among the affordable
  options and otherwise falls back to option index 0 (`none` when the
  option list is empty, which makes the subsequent catalog lookup raise);
* the number input clamps the stored plant count into `[0, allowed_max]`;
* the chosen source and count are stored back and
  `accumulated_cost += row_cost`. -/
def processRow (cat : Catalog) (budget accumulated : ℚ) (i : ℕ) (e : Entry) :
    Option (RowResult × Entry × ℚ) :=
  let remaining := budget - accumulated
  let aff := affordable_sources cat remaining e.type
  let chosen? : Option String := if e.type ∈ aff then some e.type else aff.head?
  match chosen? with
  | none => none
  | some chosen =>
    match findProfile cat chosen with
    | none => none
    | some p =>
      let cpp := costPerPlant p
      let amax := allowedMax p remaining
      let chosenN := min amax (max 0 e.n)
      let rowCost := (chosenN : ℚ) * cpp
      some ({ index := i, sourceName := chosen, costPerPlant := cpp,
              allowedMax := amax, rowCost := rowCost,
              remainingAfterRow := budget - accumulated - rowCost },
            { type := chosen, n := chosenN },
            accumulated + rowCost)

/-- The loop of src/app.py line 226, threading the position counter and the
accumulated cost. -/
def passAux (cat : Catalog) (budget : ℚ) :
    ℕ → ℚ → List Entry → Option (List RowResult × List Entry × ℚ)
  | _, acc, [] => some ([], [], acc)
  | i, acc, e :: es =>
    match processRow cat budget acc i e with
    | none => none
    | some (row, e', acc') =>
      match passAux cat budget (i + 1) acc' es with
      | none => none
      | some (rows, es', accF) => some (row :: rows, e' :: es', accF)

/-- A full engine pass: `accumulated_cost = 0.0`, iterate all entries, then
report `Total Allocated Cost` and `Remaining Budget`
(src/app.py lines 222-292). -/
def runPass (cat : Catalog) (budget : ℚ) (l : List Entry) : Option PassResult :=
  match passAux cat budget 0 0 l with
  | none => none
  | some (rows, es, acc) =>
    some { rows := rows, entriesAfter := es, totalAllocated := acc,
           totalRemaining := budget - acc }

/-- The aggregate metrics of spec section 4.4. -/
structure PortfolioSummary where
  totalEnergy : ℚ
  totalCost : ℚ
  totalWaste : ℚ
  totalCO2 : ℚ
  weightedScore : ℚ
deriving Repr, DecidableEq

/-- Resolve every entry of a portfolio to its catalog profile; `none`
propagates a failed lookup (the spec's UnknownSourceError). -/
def resolveAll (cat : Catalog) : List Entry → Option (List (Entry × SourceProfile))
  | [] => some []
  | e :: es =>
    match findProfile cat e.type, resolveAll cat es with
    | some p, some rest => some ((e, p) :: rest)
    | _, _ => none

/-- Modelled from the spec: the Calculate button (src/app.py line 294) has no
handler, so the Aggregator of spec section 4.4 has no code under src; this
definition follows the spec's formulas: sums of per-entry energy, cost,
waste and CO2, and `weightedScore = (Σ plantCount * score) / (Σ plantCount)`
when the total plant count is positive, else the defined value `0`. -/
def aggregate (cat : Catalog) (l : List Entry) : Option PortfolioSummary :=
  match resolveAll cat l with
  | none => none
  | some pairs =>
    let totalN : ℤ := (pairs.map (fun ep => ep.1.n)).sum
    some
      { totalEnergy := (pairs.map (fun ep => (ep.1.n : ℚ) * ep.2.energyPerPlant)).sum
        totalCost := (pairs.map (fun ep => (ep.1.n : ℚ) * costPerPlant ep.2)).sum
        totalWaste := (pairs.map
            (fun ep => (ep.1.n : ℚ) * ep.2.energyPerPlant * ep.2.toxicWasteTons)).sum
        totalCO2 := (pairs.map
            (fun ep => (ep.1.n : ℚ) * ep.2.energyPerPlant * ep.2.co2PerTwh)).sum
        weightedScore :=
          if 0 < totalN then
            (pairs.map (fun ep => (ep.1.n : ℚ) * ep.2.score)).sum / (totalN : ℚ)
          else 0 }

/-- The spec's budget-validation error. -/
inductive BudgetError where
  | budgetOutOfRange
deriving Repr, DecidableEq

/-- Modelled from the spec: in src/app.py lines 186-196 the budget range is
enforced by the bounds of the `st.number_input` widget, not by engine code
under src; the spec's contract is modelled directly: a requested budget
outside `[minBudget, maxBudget]` is rejected with `BudgetOutOfRangeError`,
an in-range budget is returned unchanged (never clamped). -/
def setBudget (lo hi b : ℚ) : Except BudgetError ℚ :=
  if lo ≤ b ∧ b ≤ hi then Except.ok b else Except.error BudgetError.budgetOutOfRange

/-! ## Helper lemmas -/

theorem colMin_eq_none_iff (l : List ℚ) : colMin l = none ↔ l = [] := by
  cases l with
  | nil => simp [colMin]
  | cons x xs =>
    simp only [colMin]
    cases colMin xs <;> simp

theorem colMin_spec :
    ∀ l : List ℚ, l ≠ [] → ∃ m, colMin l = some m ∧ m ∈ l ∧ ∀ x ∈ l, m ≤ x := by
  intro l
  induction l with
  | nil => intro h; exact absurd rfl h
  | cons x xs ih =>
    intro _
    by_cases hne : xs = []
    · subst hne
      exact ⟨x, by simp [colMin], by simp, by simp⟩
    · obtain ⟨m', hm', hmem, hbound⟩ := ih hne
      refine ⟨min x m', by simp [colMin, hm'], ?_, ?_⟩
      · rcases le_total x m' with h | h
        · simp [min_eq_left h]
        · rw [min_eq_right h]; exact List.mem_cons_of_mem _ hmem
      · intro y hy
        rcases List.mem_cons.mp hy with rfl | hy
        · exact min_le_left _ _
        · exact le_trans (min_le_right _ _) (hbound y hy)

theorem uniqueNamesAux_of_nodup :
    ∀ (l seen : List String), l.Nodup → (∀ s ∈ l, s ∉ seen) →
      uniqueNamesAux seen l = l := by
  intro l
  induction l with
  | nil => intro seen _ _; rfl
  | cons s rest ih =>
    intro seen hnd hdisj
    have hs : s ∉ seen := hdisj s (List.mem_cons_self s rest)
    simp only [uniqueNamesAux, if_neg hs]
    refine congrArg (s :: ·) (ih (s :: seen) (List.Nodup.of_cons hnd) ?_)
    intro t ht
    rcases List.nodup_cons.mp hnd with ⟨hsn, _⟩
    intro hmem
    rcases List.mem_cons.mp hmem with rfl | hmem'
    · exact hsn ht
    · exact hdisj t (List.mem_cons_of_mem _ ht) hmem'

theorem uniqueNames_of_nodup (l : List String) (h : l.Nodup) : uniqueNames l = l :=
  uniqueNamesAux_of_nodup l [] h (by simp)

theorem findProfile_eq_some_iff_mem {cat : Catalog} {s : String} {p : SourceProfile}
    (h : findProfile cat s = some p) : p ∈ cat ∧ p.name = s := by
  refine ⟨List.mem_of_find?_eq_some h, ?_⟩
  have := List.find?_some h
  simpa using this

theorem findProfile_of_mem {cat : Catalog} {p : SourceProfile}
    (hnd : (cat.map SourceProfile.name).Nodup) (hp : p ∈ cat) :
    findProfile cat p.name = some p := by
  induction cat with
  | nil => simp at hp
  | cons q rest ih =>
    have hnd' : (∀ x ∈ rest, ¬x.name = q.name) ∧
        (rest.map SourceProfile.name).Nodup := by simpa using hnd
    rcases List.mem_cons.mp hp with rfl | hp'
    · simp [findProfile]
    · have hne : (q.name == p.name) = false :=
        beq_eq_false_iff_ne.mpr fun he => hnd'.1 p hp' he.symm

      have hrest : findProfile rest p.name = some p := ih hnd'.2 hp'
      show List.find? (fun x => x.name == p.name) (q :: rest) = some p
      rw [List.find?_cons_of_neg _ (by simp [hne])]
      exact hrest

theorem processRow_eq_some {cat : Catalog} {B acc : ℚ} {i : ℕ} {e : Entry}
    {row : RowResult} {e' : Entry} {acc' : ℚ}
    (h : processRow cat B acc i e = some (row, e', acc')) :
    ∃ p, findProfile cat row.sourceName = some p ∧
      row.index = i ∧
      e'.type = row.sourceName ∧
      row.costPerPlant = costPerPlant p ∧
      row.allowedMax = allowedMax p (B - acc) ∧
      e'.n = min row.allowedMax (max 0 e.n) ∧
      row.rowCost = (e'.n : ℚ) * row.costPerPlant ∧
      row.remainingAfterRow = B - acc - row.rowCost ∧
      acc' = acc + row.rowCost := by
  simp only [processRow] at h
  split at h
  · simp at h
  · rename_i chosen hc
    split at h
    · simp at h
    · rename_i p hp
      simp only [Option.some.injEq, Prod.mk.injEq] at h
      obtain ⟨hrow, he', hacc⟩ := h
      subst hrow
      subst he'
      subst hacc
      exact ⟨p, hp, rfl, rfl, rfl, rfl, rfl, rfl, rfl, rfl⟩

theorem passAux_spec (cat : Catalog) (B : ℚ) :
    ∀ (l : List Entry) (i : ℕ) (acc : ℚ) (rows : List RowResult)
      (es : List Entry) (accF : ℚ),
      passAux cat B i acc l = some (rows, es, accF) →
      rows.length = l.length ∧ es.length = l.length ∧
      accF = acc + (rows.map RowResult.rowCost).sum ∧
      ∀ j e0 r en, l[j]? = some e0 → rows[j]? = some r → es[j]? = some en →
        r.index = i + j ∧
        en.type = r.sourceName ∧
        (∃ p, findProfile cat r.sourceName = some p ∧
          r.costPerPlant = costPerPlant p ∧
          r.allowedMax =
            allowedMax p (B - (acc + ((rows.take j).map RowResult.rowCost).sum))) ∧
        en.n = min r.allowedMax (max 0 e0.n) ∧
        r.rowCost = (en.n : ℚ) * r.costPerPlant ∧
        r.remainingAfterRow =
          B - (acc + ((rows.take j).map RowResult.rowCost).sum) - r.rowCost := by
  intro l
  induction l with
  | nil =>
    intro i acc rows es accF h
    simp only [passAux, Option.some.injEq, Prod.mk.injEq] at h
    obtain ⟨h1, h2, h3⟩ := h
    subst h1; subst h2; subst h3
    refine ⟨rfl, rfl, by simp, ?_⟩
    intro j e0 r en he0 _ _
    simp at he0
  | cons e l ih =>
    intro i acc rows es accF h
    simp only [passAux] at h
    split at h
    · simp at h
    · rename_i row e' acc' hpr
      split at h
      · simp at h
      · rename_i rows' es' accF' hrest
        simp only [Option.some.injEq, Prod.mk.injEq] at h
        obtain ⟨h1, h2, h3⟩ := h
        subst h1; subst h2; subst h3
        obtain ⟨hl1, hl2, hsum, hrows⟩ := ih (i + 1) acc' rows' es' accF' hrest
        obtain ⟨p, hp, hidx, htype, hcpp, hamax, hn, hrc, hrem, hacc'⟩ :=
          processRow_eq_some hpr
        refine ⟨by simp [hl1], by simp [hl2], ?_, ?_⟩
        · rw [List.map_cons, List.sum_cons, hsum, hacc']
          ring
        · intro j e0 r en he0 hr hen
          cases j with
          | zero =>
            simp only [List.getElem?_cons_zero, Option.some.injEq] at he0 hr hen
            subst he0; subst hr; subst hen
            refine ⟨by simp [hidx], htype, ⟨p, hp, hcpp, ?_⟩, hn, hrc, ?_⟩
            · simpa using hamax
            · simpa using hrem
          | succ j =>
            simp only [List.getElem?_cons_succ] at he0 hr hen
            obtain ⟨hidx', htype', ⟨q, hq, hcpp', hamax'⟩, hn', hrc', hrem'⟩ :=
              hrows j e0 r en he0 hr hen
            have hcum : acc' + ((rows'.take j).map RowResult.rowCost).sum =
                acc + (((row :: rows').take (j + 1)).map RowResult.rowCost).sum := by
              rw [hacc']
              simp [List.take_succ_cons]
              ring
            refine ⟨by omega, htype', ⟨q, hq, hcpp', ?_⟩, hn', hrc', ?_⟩
            · rw [← hcum]; exact hamax'
            · rw [← hcum]; exact hrem'

theorem allowedMax_nonneg {p : SourceProfile} {r : ℚ}
    (hr : 0 ≤ r) (hm : 0 ≤ p.totalPlants) : 0 ≤ allowedMax p r := by
  unfold allowedMax
  split
  · rename_i hpos
    exact le_min hm (Int.floor_nonneg.mpr (div_nonneg hr (le_of_lt hpos)))
  · exact hm

theorem passAux_nonneg (cat : Catalog) (B : ℚ)
    (hcat : ∀ p ∈ cat, 0 ≤ costPerPlant p ∧ 0 ≤ p.totalPlants) :
    ∀ (l : List Entry) (i : ℕ) (acc : ℚ) (rows : List RowResult)
      (es : List Entry) (accF : ℚ),
      passAux cat B i acc l = some (rows, es, accF) →
      0 ≤ B - acc →
      0 ≤ B - accF ∧
      ∀ (j : ℕ) (r : RowResult) (en : Entry), rows[j]? = some r → es[j]? = some en →
        0 ≤ en.n ∧ en.n ≤ r.allowedMax := by
  intro l
  induction l with
  | nil =>
    intro i acc rows es accF h hrem
    simp only [passAux, Option.some.injEq, Prod.mk.injEq] at h
    obtain ⟨h1, h2, h3⟩ := h
    subst h1; subst h2; subst h3
    exact ⟨hrem, fun j r en hr _ => by simp at hr⟩
  | cons e l ih =>
    intro i acc rows es accF h hrem
    simp only [passAux] at h
    split at h
    · simp at h
    · rename_i row e' acc' hpr
      split at h
      · simp at h
      · rename_i rows' es' accF' hrest
        simp only [Option.some.injEq, Prod.mk.injEq] at h
        obtain ⟨h1, h2, h3⟩ := h
        subst h1; subst h2; subst h3
        obtain ⟨p, hp, hidx, htype, hcpp, hamax, hn, hrc, hrm, hacc'⟩ :=
          processRow_eq_some hpr
        obtain ⟨hpmem, _⟩ := findProfile_eq_some_iff_mem hp
        obtain ⟨hcpp0, hm0⟩ := hcat p hpmem
        have hamax0 : 0 ≤ row.allowedMax := by
          rw [hamax]; exact allowedMax_nonneg hrem hm0
        have hn0 : 0 ≤ e'.n := by
          rw [hn]; exact le_min hamax0 (le_max_left 0 e.n)
        have hnle : e'.n ≤ row.allowedMax := by rw [hn]; exact min_le_left _ _
        have hcost : row.rowCost ≤ B - acc := by
          rw [hrc, hcpp]
          by_cases hpos : 0 < costPerPlant p
          · have h1 : e'.n ≤ ⌊(B - acc) / costPerPlant p⌋ := by
              have : row.allowedMax ≤ ⌊(B - acc) / costPerPlant p⌋ := by
                rw [hamax]; unfold allowedMax; rw [if_pos hpos]
                exact min_le_right _ _
              exact le_trans hnle this
            have h2 : (e'.n : ℚ) ≤ (B - acc) / costPerPlant p := by
              exact_mod_cast Int.le_floor.mp h1
            calc (e'.n : ℚ) * costPerPlant p
                ≤ (B - acc) / costPerPlant p * costPerPlant p :=
                  mul_le_mul_of_nonneg_right h2 hcpp0
              _ = B - acc := div_mul_cancel₀ _ (ne_of_gt hpos)
          · have : costPerPlant p = 0 := le_antisymm (not_lt.mp hpos) hcpp0
            rw [this, mul_zero]
            exact hrem
        have hrem' : 0 ≤ B - acc' := by rw [hacc']; linarith
        obtain ⟨hfin, hall⟩ := ih (i + 1) acc' rows' es' accF' hrest hrem'
        refine ⟨hfin, ?_⟩
        intro j r en hr hen
        cases j with
        | zero =>
          simp only [List.getElem?_cons_zero, Option.some.injEq] at hr hen
          subst hr; subst hen
          exact ⟨hn0, hnle⟩
        | succ j =>
          simp only [List.getElem?_cons_succ] at hr hen
          exact hall j r en hr hen

/-- The `allowedMax` formula in the spec's words (spec section 4.2), stated
on the raw bound, cost and remaining budget, for comparison with the
implementation's `allowedMax`. -/
def allowedMaxSpec (maxPlants : ℤ) (cpp r : ℚ) : ℤ :=
  if 0 < cpp then min maxPlants ⌊r / cpp⌋ else maxPlants

theorem resolveAll_of_forall {cat : Catalog} {ps : Entry → SourceProfile} :
    ∀ l : List Entry, (∀ e ∈ l, findProfile cat e.type = some (ps e)) →
      resolveAll cat l = some (l.map (fun e => (e, ps e))) := by
  intro l
  induction l with
  | nil => intro _; rfl
  | cons e es ih =>
    intro hall
    have h1 : findProfile cat e.type = some (ps e) :=
      hall e (List.mem_cons_self e es)
    have h2 : resolveAll cat es = some (es.map (fun e => (e, ps e))) :=
      ih fun x hx => hall x (List.mem_cons_of_mem _ hx)
    simp [resolveAll, h1, h2]

theorem getElem?_insertIdx_of_lt {α : Type} :
    ∀ (l : List α) (k j : ℕ) (e : α), j < k → (l.insertIdx k e)[j]? = l[j]? := by
  intro l
  induction l with
  | nil =>
    intro k j e hj
    cases k with
    | zero => omega
    | succ k => simp [List.insertIdx]
  | cons a l ih =>
    intro k j e hj
    cases k with
    | zero => omega
    | succ k =>
      cases j with
      | zero => simp [List.insertIdx_succ_cons]
      | succ j =>
        simp only [List.insertIdx_succ_cons, List.getElem?_cons_succ]
        exact ih k j e (by omega)

theorem getElem?_insertIdx_succ_of_ge {α : Type} :
    ∀ (l : List α) (k j : ℕ) (e : α), k ≤ j → (l.insertIdx k e)[j + 1]? = l[j]? := by
  intro l
  induction l with
  | nil =>
    intro k j e hk
    cases k with
    | zero => simp [List.insertIdx]
    | succ k => simp [List.insertIdx]
  | cons a l ih =>
    intro k j e hk
    cases k with
    | zero => simp [List.insertIdx]
    | succ k =>
      cases j with
      | zero => omega
      | succ j =>
        simp only [List.insertIdx_succ_cons, List.getElem?_cons_succ]
        exact ih k j e (Nat.le_of_succ_le_succ hk)

/-! ## Fixtures for witnesses and counterexamples -/

/-- A concrete source (the spec section 8 example Solar row):
`costPerPlant = 10 * (5 + 0) = 50`. -/
def wSolar : SourceProfile :=
  { name := "Solar", energyPerPlant := 10, totalCostsPerTwh := 5, wasteCost := 0,
    toxicWasteTons := 0, co2PerTwh := 0, score := 2, totalPlants := 3 }

/-- A one-source catalog. -/
def wCat : Catalog := [wSolar]

/-- A concrete portfolio entry. -/
def wEn : Entry := { type := "Solar", n := 2 }

/-- The row result of running `wCat` with budget 120 on `[wEn]`. -/
def wRow : RowResult :=
  { index := 0, sourceName := "Solar", costPerPlant := 50, allowedMax := 2,
    rowCost := 100, remainingAfterRow := 20 }

/-- The full pass result of running `wCat` with budget 120 on `[wEn]`. -/
def wRes : PassResult :=
  { rows := [wRow], entriesAfter := [wEn], totalAllocated := 100,
    totalRemaining := 20 }

theorem wRes_run : runPass wCat 120 [wEn] = some wRes := by
  norm_num [runPass, passAux, processRow, affordable_sources, affordableBase,
    validSources, uniqueNames, uniqueNamesAux, findProfile, List.find?,
    allowedMax, costPerPlant, wCat, wSolar, wEn, wRow, wRes, List.filter]

/-- A profile with `costPerPlant = 10` and a cap of 5 plants. -/
def cHigh : SourceProfile :=
  { name := "X", energyPerPlant := 1, totalCostsPerTwh := 10, wasteCost := 0,
    toxicWasteTons := 0, co2PerTwh := 0, score := 0, totalPlants := 5 }

/-- A profile with `costPerPlant = 1` and the same cap of 5 plants. -/
def cLow : SourceProfile :=
  { name := "Y", energyPerPlant := 1, totalCostsPerTwh := 1, wasteCost := 0,
    toxicWasteTons := 0, co2PerTwh := 0, score := 0, totalPlants := 5 }

/-! ## Claim theorems -/

/-- C1: for every catalog, budget `B` and portfolio, the engine's
left-to-right pass computes, for each processed row `j`,
`rowCost_j = plantCount_j * costPerPlant(source_j)` and
`remainingAfterRow_j = B - cumulativeCost_j - rowCost_j` where
`cumulativeCost_j` is the sum of the row costs of the entries before `j`,
and the terminal totals are `totalAllocated = cumulativeCost` and
`totalRemaining = B - cumulativeCost`. -/
theorem C1_pass_accounting :
    ∀ (cat : Catalog) (B : ℚ) (l : List Entry) (res : PassResult),
      runPass cat B l = some res →
      res.totalAllocated = (res.rows.map RowResult.rowCost).sum ∧
      res.totalRemaining = B - res.totalAllocated ∧
      res.rows.length = l.length ∧ res.entriesAfter.length = l.length ∧
      ∀ (j : ℕ) (e0 : Entry) (r : RowResult) (en : Entry),
        l[j]? = some e0 → res.rows[j]? = some r → res.entriesAfter[j]? = some en →
        r.index = j ∧ en.type = r.sourceName ∧
        (∃ p, findProfile cat r.sourceName = some p ∧
          r.costPerPlant = costPerPlant p) ∧
        r.rowCost = (en.n : ℚ) * r.costPerPlant ∧
        r.remainingAfterRow =
          B - ((res.rows.take j).map RowResult.rowCost).sum - r.rowCost := by
  intro cat B l res h
  simp only [runPass] at h
  split at h
  · simp at h
  · rename_i rows es acc hpa
    simp only [Option.some.injEq] at h
    subst h
    obtain ⟨h1, h2, h3, h4⟩ := passAux_spec cat B l 0 0 rows es acc hpa
    refine ⟨by simpa using h3, rfl, h1, h2, ?_⟩
    intro j e0 r en he0 hr hen
    obtain ⟨hidx, htype, ⟨p, hp, hcpp, _⟩, _, hrc, hrem⟩ := h4 j e0 r en he0 hr hen
    exact ⟨by simpa using hidx, htype, ⟨p, hp, hcpp⟩, hrc, by simpa using hrem⟩

/-- C1 witness: the accounting identities hold on a concrete run. -/
theorem C1_pass_accounting_witness :
    ∃ res : PassResult, runPass wCat 120 [wEn] = some res ∧
      res.totalAllocated = (res.rows.map RowResult.rowCost).sum ∧
      res.totalRemaining = 120 - res.totalAllocated := by
  obtain ⟨h1, h2, _⟩ := C1_pass_accounting wCat 120 [wEn] wRes wRes_run
  exact ⟨wRes, wRes_run, h1, h2⟩

/-- C2 counterexample: with `costPerPlant = 10`, `maxPlants = 5` and
`remainingBudget = -20`, the implementation returns
`min(5, floor(-20 / 10)) = -2`, which is negative, so the claim's
"the result is never negative: when remainingBudget < 0 the result is
clamped to 0" is false of the code. -/
theorem C2_counterexample :
    allowedMax cHigh (-20) = -2 ∧ allowedMax cHigh (-20) < 0 := by
  norm_num [allowedMax, costPerPlant, cHigh]

/-- C2 (amended): `allowedMax(profile, r)` equals
`min(maxPlants, floor(r / costPerPlant))` when `costPerPlant > 0` and
`maxPlants` otherwise; no clamping to 0 is performed, so the result is
guaranteed non-negative only when the remaining budget and the plant cap
are non-negative. -/
theorem C2_allowedMax_formula :
    ∀ (p : SourceProfile) (r : ℚ),
      allowedMax p r = allowedMaxSpec p.totalPlants (costPerPlant p) r ∧
      (0 ≤ r → 0 ≤ p.totalPlants → 0 ≤ allowedMax p r) :=
  fun _ _ => ⟨rfl, fun hr hm => allowedMax_nonneg hr hm⟩

/-- C2 witness: the formula and the non-negativity bound at a concrete
profile and remaining budget. -/
theorem C2_allowedMax_formula_witness :
    allowedMax cHigh 0 = allowedMaxSpec cHigh.totalPlants (costPerPlant cHigh) 0 ∧
      0 ≤ allowedMax cHigh 0 :=
  ⟨(C2_allowedMax_formula cHigh 0).1,
    (C2_allowedMax_formula cHigh 0).2 le_rfl (by norm_num [cHigh])⟩

/-- C7 counterexample: with the cap fixed at 5 and `remainingBudget = -10`,
raising `costPerPlant` from 1 to 10 raises the result from
`min(5, -10) = -10` to `min(5, -1) = -1`, so the claimed "non-increasing as
costPerPlant increases" fails for negative remaining budgets. -/
theorem C7_counterexample :
    cLow.totalPlants = cHigh.totalPlants ∧
    costPerPlant cLow ≤ costPerPlant cHigh ∧
    ¬ allowedMax cHigh (-10) ≤ allowedMax cLow (-10) := by
  norm_num [allowedMax, costPerPlant, cLow, cHigh]

/-- C7 (amended): for a fixed profile, `allowedMax` is monotonically
non-decreasing in the remaining budget; for a fixed *non-negative*
remaining budget it is non-increasing as `costPerPlant` increases with the
plant cap held fixed (for negative remaining budgets the comparison can
reverse, as the counterexample shows). -/
theorem C7_allowedMax_monotone :
    (∀ (p : SourceProfile) (r1 r2 : ℚ), r1 ≤ r2 →
      allowedMax p r1 ≤ allowedMax p r2) ∧
    (∀ (p1 p2 : SourceProfile) (r : ℚ), p1.totalPlants = p2.totalPlants →
      costPerPlant p1 ≤ costPerPlant p2 → 0 ≤ r →
      allowedMax p2 r ≤ allowedMax p1 r) := by
  constructor
  · intro p r1 r2 h
    by_cases hpos : 0 < costPerPlant p
    · simp only [allowedMax, if_pos hpos]
      refine min_le_min le_rfl (Int.floor_le_floor ?_)
      gcongr
    · simp [allowedMax, hpos]
  · intro p1 p2 r hm hc hr
    by_cases h1 : 0 < costPerPlant p1
    · have h2 : 0 < costPerPlant p2 := lt_of_lt_of_le h1 hc
      simp only [allowedMax, if_pos h1, if_pos h2, ← hm]
      refine min_le_min le_rfl (Int.floor_le_floor ?_)
      rw [div_le_div_iff₀ h2 h1]
      exact mul_le_mul_of_nonneg_left hc hr
    · by_cases h2 : 0 < costPerPlant p2
      · simp only [allowedMax, if_pos h2, if_neg h1, ← hm]
        exact min_le_left _ _
      · simp [allowedMax, h1, h2, hm]

/-- C7 witness: both monotonicity directions at concrete inputs. -/
theorem C7_allowedMax_monotone_witness :
    allowedMax cLow 10 ≤ allowedMax cLow 20 ∧
      allowedMax cHigh 10 ≤ allowedMax cLow 10 :=
  ⟨C7_allowedMax_monotone.1 cLow 10 20 (by norm_num),
    C7_allowedMax_monotone.2 cLow cHigh 10 (by norm_num [cLow, cHigh])
      (by norm_num [costPerPlant, cLow, cHigh]) (by norm_num)⟩

/-- C3: for every catalog with distinct source names, remaining budget and
currently selected source, `affordable_sources` returns exactly the sources
whose `costPerPlant ≤ remainingBudget`, united with the currently selected
source when `remainingBudget > 0`, sorted lexicographically; when
`remainingBudget ≤ 0` the union clause does not apply, so membership of the
current selection requires affordability. -/
theorem C3_affordable_sources :
    ∀ (cat : Catalog) (r : ℚ) (cur : String),
      (cat.map SourceProfile.name).Nodup →
      (affordable_sources cat r cur).Sorted (· ≤ ·) ∧
      ∀ s, s ∈ affordable_sources cat r cur ↔
        ((∃ p ∈ cat, p.name = s ∧ costPerPlant p ≤ r) ∨ (0 < r ∧ s = cur)) := by
  intro cat r cur hnd
  have hbase : ∀ t, t ∈ affordableBase cat r ↔
      ∃ p ∈ cat, p.name = t ∧ costPerPlant p ≤ r := by
    intro t
    unfold affordableBase validSources
    rw [uniqueNames_of_nodup _ hnd, List.mem_filter]
    constructor
    · rintro ⟨_, hpred⟩
      rcases hfp : findProfile cat t with _ | p
      · rw [hfp] at hpred; simp at hpred
      · rw [hfp] at hpred
        simp only [decide_eq_true_eq] at hpred
        obtain ⟨hp, hname⟩ := findProfile_eq_some_iff_mem hfp
        exact ⟨p, hp, hname, hpred⟩
    · rintro ⟨p, hp, rfl, hle⟩
      refine ⟨List.mem_map_of_mem _ hp, ?_⟩
      rw [findProfile_of_mem hnd hp]
      simpa using hle
  constructor
  · unfold affordable_sources
    exact List.sorted_mergeSort' _
  · intro s
    unfold affordable_sources
    rw [List.mem_mergeSort]
    by_cases hc : cur ∉ affordableBase cat r ∧ 0 < r
    · rw [if_pos hc, List.mem_append, List.mem_singleton, hbase]
      constructor
      · rintro (h | rfl)
        · exact Or.inl h
        · exact Or.inr ⟨hc.2, rfl⟩
      · rintro (h | ⟨_, rfl⟩)
        · exact Or.inl h
        · exact Or.inr rfl
    · rw [if_neg hc, hbase]
      constructor
      · exact Or.inl
      · rintro (h | ⟨hr0, rfl⟩)
        · exact h
        · have hcur : s ∈ affordableBase cat r := by
            by_contra hcur
            exact hc ⟨hcur, hr0⟩
          exact (hbase s).mp hcur

/-- C3 witness: the characterization applied to a concrete catalog with
distinct names. -/
theorem C3_affordable_sources_witness :
    (affordable_sources wCat 120 "Solar").Sorted (· ≤ ·) ∧
    ∀ s, s ∈ affordable_sources wCat 120 "Solar" ↔
      ((∃ p ∈ wCat, p.name = s ∧ costPerPlant p ≤ 120) ∨
        ((0 : ℚ) < 120 ∧ s = "Solar")) :=
  C3_affordable_sources wCat 120 "Solar" (by simp [wCat])

/-- C4: `aggregate` returns
`weightedScore = (Σ plantCount * score) / (Σ plantCount)` when the total
plant count is positive and the defined value `0` when it is zero, without
raising (modelled from the spec: the Calculate button at src/app.py line 294
has no handler, so the Aggregator exists only in the spec). -/
theorem C4_aggregate_weightedScore :
    ∀ (cat : Catalog) (l : List Entry) (ps : Entry → SourceProfile),
      (∀ e ∈ l, findProfile cat e.type = some (ps e)) →
      ∃ s, aggregate cat l = some s ∧
        ((l.map Entry.n).sum = 0 → s.weightedScore = 0) ∧
        (0 < (l.map Entry.n).sum →
          s.weightedScore =
            (l.map (fun e => (e.n : ℚ) * (ps e).score)).sum /
              (((l.map Entry.n).sum : ℤ) : ℚ)) := by
  intro cat l ps hall
  have hres := resolveAll_of_forall l hall
  have hagg : aggregate cat l = some
      { totalEnergy := (l.map (fun e => (e.n : ℚ) * (ps e).energyPerPlant)).sum
        totalCost := (l.map (fun e => (e.n : ℚ) * costPerPlant (ps e))).sum
        totalWaste := (l.map
          (fun e => (e.n : ℚ) * (ps e).energyPerPlant * (ps e).toxicWasteTons)).sum
        totalCO2 := (l.map
          (fun e => (e.n : ℚ) * (ps e).energyPerPlant * (ps e).co2PerTwh)).sum
        weightedScore :=
          if 0 < (l.map Entry.n).sum then
            (l.map (fun e => (e.n : ℚ) * (ps e).score)).sum /
              (((l.map Entry.n).sum : ℤ) : ℚ)
          else 0 } := by
    unfold aggregate
    rw [hres]
    simp only [List.map_map]
    rfl
  refine ⟨_, hagg, ?_, ?_⟩
  · intro hz
    show (if 0 < (l.map Entry.n).sum then
        (l.map (fun e => (e.n : ℚ) * (ps e).score)).sum /
          (((l.map Entry.n).sum : ℤ) : ℚ)
      else 0) = 0
    rw [hz]
    norm_num
  · intro hpos
    show (if 0 < (l.map Entry.n).sum then
        (l.map (fun e => (e.n : ℚ) * (ps e).score)).sum /
          (((l.map Entry.n).sum : ℤ) : ℚ)
      else 0) = _
    rw [if_pos hpos]

/-- C4 witness: a concrete zero-plant portfolio aggregates to weighted
score 0 without failing. -/
theorem C4_aggregate_weightedScore_witness :
    ∃ s, aggregate wCat [{ type := "Solar", n := 0 }] = some s ∧
      s.weightedScore = 0 := by
  obtain ⟨s, hs, hz, _⟩ :=
    C4_aggregate_weightedScore wCat [{ type := "Solar", n := 0 }]
      (fun _ => wSolar)
      (by
        intro e he
        simp only [List.mem_singleton] at he
        subst he
        simp [findProfile, wCat, List.find?, wSolar])
  exact ⟨s, hs, hz (by simp)⟩

/-- C5: for every nonempty catalog, `minBudget` is the least per-plant cost
over the catalog (and is attained), and `maxBudget` is the sum over all
sources of `maxPlants * energyPerPlant * (baseCostPerTWh + wasteCostPerTWh)`;
both are pure functions of the catalog. -/
theorem C5_budget_bounds :
    ∀ cat : Catalog, cat ≠ [] →
      ∃ m, minBudget cat = some m ∧ m ∈ cat.map costPerPlant ∧
        (∀ p ∈ cat, m ≤ costPerPlant p) ∧
        maxBudget cat = (cat.map (fun p => (p.totalPlants : ℚ) *
          (p.energyPerPlant * (p.totalCostsPerTwh + p.wasteCost)))).sum := by
  intro cat hne
  obtain ⟨m, hm, hmem, hb⟩ := colMin_spec (cat.map costPerPlant) (by simpa using hne)
  refine ⟨m, hm, hmem, ?_, rfl⟩
  intro p hp
  exact hb _ (List.mem_map_of_mem _ hp)

/-- C5 witness: the bounds of the concrete one-source catalog. -/
theorem C5_budget_bounds_witness :
    ∃ m, minBudget wCat = some m ∧ m ∈ wCat.map costPerPlant ∧
      (∀ p ∈ wCat, m ≤ costPerPlant p) ∧
      maxBudget wCat = (wCat.map (fun p => (p.totalPlants : ℚ) *
        (p.energyPerPlant * (p.totalCostsPerTwh + p.wasteCost)))).sum :=
  C5_budget_bounds wCat (by simp [wCat])

/-- C6: a requested budget outside `[minBudget, maxBudget]` is rejected
with `BudgetOutOfRangeError`, and an accepted budget is returned unchanged
— never silently clamped (modelled from the spec: src/app.py lines 186-196
delegate range enforcement to the widget's bounds). -/
theorem C6_budget_rejection :
    ∀ (cat : Catalog) (lo b : ℚ), minBudget cat = some lo →
      (¬ (lo ≤ b ∧ b ≤ maxBudget cat) →
        setBudget lo (maxBudget cat) b =
          Except.error BudgetError.budgetOutOfRange) ∧
      ∀ b', setBudget lo (maxBudget cat) b = Except.ok b' →
        b' = b ∧ lo ≤ b ∧ b ≤ maxBudget cat := by
  intro cat lo b _
  unfold setBudget
  constructor
  · intro h
    rw [if_neg h]
  · intro b' h
    by_cases hc : lo ≤ b ∧ b ≤ maxBudget cat
    · rw [if_pos hc] at h
      simp only [Except.ok.injEq] at h
      exact ⟨h.symm, hc⟩
    · rw [if_neg hc] at h
      simp at h

/-- C6 witness: a concrete out-of-range budget (0, below the minimum 50)
is rejected. -/
theorem C6_budget_rejection_witness :
    setBudget 50 (maxBudget wCat) 0 =
      Except.error BudgetError.budgetOutOfRange :=
  (C6_budget_rejection wCat 50 0
      (by norm_num [minBudget, colMin, wCat, wSolar, costPerPlant])).1
    (by norm_num)

/-- C8: removing the entry at a valid position `k` (which deletes it and
shifts the later entries up by one position) and re-running the pass yields
exactly the pass of the portfolio that never contained that entry; the
shifted entries are those that sat one position further down before the
removal. -/
theorem C8_remove_then_rerun :
    ∀ (cat : Catalog) (B : ℚ) (l : List Entry) (k : ℕ) (e : Entry),
      k ≤ l.length →
      ∃ l', remove_row (l.insertIdx k e) k = some l' ∧
        runPass cat B l' = runPass cat B l ∧
        (∀ j, j < k → l'[j]? = (l.insertIdx k e)[j]?) ∧
        (∀ j, k ≤ j → l'[j]? = (l.insertIdx k e)[j + 1]?) := by
  intro cat B l k e hk
  have hlen : (l.insertIdx k e).length = l.length + 1 :=
    List.length_insertIdx k l hk
  have hrm : remove_row (l.insertIdx k e) k = some l := by
    unfold remove_row
    rw [if_pos (by omega), List.eraseIdx_insertIdx]
  refine ⟨l, hrm, rfl, ?_, ?_⟩
  · intro j hj
    exact (getElem?_insertIdx_of_lt l k j e hj).symm
  · intro j hj
    exact (getElem?_insertIdx_succ_of_ge l k j e hj).symm

/-- C8 witness: inserting an entry into the empty portfolio at position 0
and removing it restores the empty portfolio and its pass. -/
theorem C8_remove_then_rerun_witness :
    ∃ l', remove_row (([] : List Entry).insertIdx 0 wEn) 0 = some l' ∧
      runPass wCat 120 l' = runPass wCat 120 [] ∧
      (∀ j, j < 0 → l'[j]? = (([] : List Entry).insertIdx 0 wEn)[j]?) ∧
      (∀ j, 0 ≤ j → l'[j]? = (([] : List Entry).insertIdx 0 wEn)[j + 1]?) :=
  C8_remove_then_rerun wCat 120 [] 0 wEn (by simp)

/-- C9: for every budget `B` inside the catalog's range, the pass over the
empty portfolio yields `totalAllocated = 0` and `totalRemaining = B`. -/
theorem C9_empty_portfolio :
    ∀ (cat : Catalog) (B lo : ℚ), minBudget cat = some lo →
      lo ≤ B → B ≤ maxBudget cat →
      ∃ res, runPass cat B [] = some res ∧
        res.totalAllocated = 0 ∧ res.totalRemaining = B := by
  intro cat B lo _ _ _
  exact ⟨{ rows := [], entriesAfter := [], totalAllocated := 0,
           totalRemaining := B - 0 }, rfl, rfl, sub_zero B⟩

/-- C9 witness: the concrete catalog with budget 120 inside [50, 150]. -/
theorem C9_empty_portfolio_witness :
    ∃ res, runPass wCat 120 [] = some res ∧
      res.totalAllocated = 0 ∧ res.totalRemaining = 120 :=
  C9_empty_portfolio wCat 120 50
    (by norm_num [minBudget, colMin, wCat, wSolar, costPerPlant])
    (by norm_num)
    (by norm_num [maxBudget, maxCostPerSource, wCat, wSolar, costPerPlant])

/-- C10 (implicit): over a catalog with non-negative costs and plant caps
and a non-negative budget, the plant count stored back for every processed
row is hard-clamped into `[0, allowedMax(source_j, remaining_j)]`, where
`remaining_j` is the budget left before row `j`. -/
theorem C10_stored_count_clamped :
    ∀ (cat : Catalog) (B : ℚ) (l : List Entry) (res : PassResult),
      (∀ p ∈ cat, 0 ≤ costPerPlant p ∧ 0 ≤ p.totalPlants) →
      0 ≤ B →
      runPass cat B l = some res →
      ∀ (j : ℕ) (r : RowResult) (en : Entry),
        res.rows[j]? = some r → res.entriesAfter[j]? = some en →
        0 ≤ en.n ∧ en.n ≤ r.allowedMax ∧
        ∃ p, findProfile cat en.type = some p ∧
          r.allowedMax =
            allowedMax p (B - ((res.rows.take j).map RowResult.rowCost).sum) := by
  intro cat B l res hcat hB h
  simp only [runPass] at h
  split at h
  · simp at h
  · rename_i rows es acc hpa
    simp only [Option.some.injEq] at h
    subst h
    intro j r en hr hen
    obtain ⟨_, hall⟩ :=
      passAux_nonneg cat B hcat l 0 0 rows es acc hpa (by simpa using hB)
    obtain ⟨h0, h1⟩ := hall j r en hr hen
    obtain ⟨hlr, _, _, hspec⟩ := passAux_spec cat B l 0 0 rows es acc hpa
    have hjlt : j < l.length := by
      rw [← hlr]
      exact (List.getElem?_eq_some.mp hr).1
    obtain ⟨hj, _⟩ := List.getElem?_eq_some.mp hr
    obtain ⟨_, htype, ⟨p, hp, _, hamax⟩, _, _, _⟩ :=
      hspec j (l.get ⟨j, hjlt⟩) r en (List.getElem?_eq_getElem hjlt) hr hen
    refine ⟨h0, h1, p, ?_, by simpa using hamax⟩
    rw [htype]
    exact hp

/-- C10 witness: the clamp bounds on the single row of a concrete run. -/
theorem C10_stored_count_clamped_witness :
    0 ≤ wEn.n ∧ wEn.n ≤ wRow.allowedMax ∧
      ∃ p, findProfile wCat wEn.type = some p ∧
        wRow.allowedMax =
          allowedMax p (120 - ((wRes.rows.take 0).map RowResult.rowCost).sum) :=
  C10_stored_count_clamped wCat 120 [wEn] wRes
    (by
      intro p hp
      simp only [wCat, List.mem_singleton] at hp
      subst hp
      norm_num [costPerPlant, wSolar])
    (by norm_num)
    wRes_run 0 wRow wEn
    (by simp [wRes]) (by simp [wRes])

end Simulator
